import Mathlib

/-!
Verification of the backtest performance engine of the Trade-AI repository
(src/backtester.py), centred on `annualization_factor` and
`compute_performance`.

The Python code operates on pandas Series of IEEE-754 doubles.  We embed the
numeric semantics shallowly: a value is either a finite number (modelled as an
exact rational, i.e. real-number arithmetic without rounding), +infinity,
-infinity, or NaN, and the arithmetic operations follow the IEEE rules that
numpy/pandas apply (inf - inf = NaN, 0 * inf = NaN, 1/0 = +inf, NaN
propagates, ...).  The two statistics that involve a square root
(`annual_volatility`, `sharpe_ratio`) live in a companion type `RV` whose
finite payload is a real number, so that `np.sqrt` can be modelled exactly.
-/

/-- An IEEE-754-style numeric value as produced by numpy/pandas arithmetic:
a finite number (exact rational), positive or negative infinity, or NaN. -/
inductive V where
  | num (q : ℚ)
  | inf
  | ninf
  | nan
deriving DecidableEq, Repr

/-- IEEE negation. -/
def V.neg : V → V
  | .num q => .num (-q)
  | .inf => .ninf
  | .ninf => .inf
  | .nan => .nan

/-- IEEE addition: NaN propagates; inf + (-inf) = NaN. -/
def V.add : V → V → V
  | .nan, _ => .nan
  | _, .nan => .nan
  | .num a, .num b => .num (a + b)
  | .inf, .ninf => .nan
  | .ninf, .inf => .nan
  | .inf, _ => .inf
  | _, .inf => .inf
  | .ninf, _ => .ninf
  | _, .ninf => .ninf

/-- IEEE subtraction, via negation. -/
def V.sub (a b : V) : V := V.add a (V.neg b)

/-- IEEE multiplication: NaN propagates; 0 * (±inf) = NaN. -/
def V.mul : V → V → V
  | .nan, _ => .nan
  | _, .nan => .nan
  | .num a, .num b => .num (a * b)
  | .num a, .inf => if a = 0 then .nan else if 0 < a then .inf else .ninf
  | .num a, .ninf => if a = 0 then .nan else if 0 < a then .ninf else .inf
  | .inf, .num b => if b = 0 then .nan else if 0 < b then .inf else .ninf
  | .ninf, .num b => if b = 0 then .nan else if 0 < b then .ninf else .inf
  | .inf, .inf => .inf
  | .inf, .ninf => .ninf
  | .ninf, .inf => .ninf
  | .ninf, .ninf => .inf

/-- IEEE division: NaN propagates; x/0 = ±inf by the sign of x (0/0 = NaN);
finite/inf = 0; inf/inf = NaN. -/
def V.div : V → V → V
  | .nan, _ => .nan
  | _, .nan => .nan
  | .num a, .num b =>
      if b = 0 then (if a = 0 then .nan else if 0 < a then .inf else .ninf)
      else .num (a / b)
  | .num _, .inf => .num 0
  | .num _, .ninf => .num 0
  | .inf, .num b => if 0 ≤ b then .inf else .ninf
  | .ninf, .num b => if 0 ≤ b then .ninf else .inf
  | .inf, .inf => .nan
  | .inf, .ninf => .nan
  | .ninf, .inf => .nan
  | .ninf, .ninf => .nan

/-- IEEE power with a natural exponent (the annualization factors that occur
are positive integers).  Python/numpy give x ** 0 = 1.0 for every x,
including NaN and infinities. -/
def V.powN : V → ℕ → V
  | _, 0 => .num 1
  | .num q, n + 1 => .num (q ^ (n + 1))
  | .inf, _ + 1 => .inf
  | .ninf, n + 1 => if (n + 1) % 2 = 1 then .ninf else .inf
  | .nan, _ + 1 => .nan

/-- Maximum of two non-NaN values (ninf < finite < inf); used by `cummax`
where pandas skips NaNs. -/
def V.max2 : V → V → V
  | .inf, _ => .inf
  | _, .inf => .inf
  | .ninf, b => b
  | a, .ninf => a
  | .num a, .num b => .num (max a b)
  | .nan, b => b
  | a, .nan => a

/-- Minimum of two non-NaN values; used by `Series.min` which skips NaNs. -/
def V.min2 : V → V → V
  | .ninf, _ => .ninf
  | _, .ninf => .ninf
  | .inf, b => b
  | a, .inf => a
  | .num a, .num b => .num (min a b)
  | .nan, b => b
  | a, .nan => a

/-! ### pandas Series operations used by `compute_performance` -/

/-- `Series.shift(1)`: each value moves one slot later; the first slot
becomes NaN; the last value drops off. -/
def shift1 (xs : List V) : List V := V.nan :: xs.dropLast

/-- `Series.fillna(0)`: replace NaN (and only NaN — infinities stay) by 0. -/
def fillna0 (xs : List V) : List V :=
  xs.map (fun v => if v = V.nan then V.num 0 else v)

/-- `Series.pct_change()`: `x / x.shift(1) - 1` elementwise (the first entry
is NaN because the shifted series starts with NaN). -/
def pctChange (xs : List V) : List V :=
  List.zipWith (fun a b => V.sub (V.div a b) (V.num 1)) xs (shift1 xs)

/-- `Series.cumprod()`: running product, evaluated left to right. -/
def cumprodGo (acc : V) : List V → List V
  | [] => []
  | x :: r => let b := V.mul acc x; b :: cumprodGo b r

/-- `Series.cumprod()` starting from an empty product. -/
def cumprod (xs : List V) : List V := cumprodGo (V.num 1) xs

/-- `Series.cummax()` with pandas' default NaN handling: a NaN entry yields
NaN at its own position but does not disturb the running maximum. -/
def cummaxGo (best : Option V) : List V → List V
  | [] => []
  | x :: r =>
      if x = V.nan then V.nan :: cummaxGo best r
      else
        let b := match best with
          | none => x
          | some b0 => V.max2 b0 x
        b :: cummaxGo (some b) r

/-- `Series.cummax()`. -/
def cummax (xs : List V) : List V := cummaxGo none xs

/-- Whether a value is not NaN (the entries `skipna` keeps). -/
def V.notNan : V → Bool
  | .nan => false
  | _ => true

/-- `Series.min()` with pandas' default `skipna=True`: NaNs are ignored; an
all-NaN (or empty) series yields NaN. -/
def minSkipna (xs : List V) : V :=
  match xs.filter V.notNan with
  | [] => V.nan
  | v :: r => r.foldl V.min2 v

/-- `Series.mean()` with `skipna=True`: arithmetic mean of the non-NaN
entries; NaN if there are none.  Infinities are not skipped. -/
def meanF (xs : List V) : V :=
  let vals := xs.filter V.notNan
  if vals.length = 0 then V.nan
  else V.div (vals.foldl V.add (V.num 0)) (V.num vals.length)

/-- The sample variance underlying `Series.std()` (`ddof=1`, `skipna=True`):
sum of squared deviations of the non-NaN entries divided by (n - 1); NaN when
fewer than two entries remain.  `std` itself is the square root of this value
and is taken in the real-valued layer `RV` below. -/
def varF (xs : List V) : V :=
  let vals := xs.filter V.notNan
  if vals.length ≤ 1 then V.nan
  else
    let m := meanF xs
    V.div (vals.foldl (fun acc v => V.add acc (V.powN (V.sub v m) 2)) (V.num 0))
      (V.num (vals.length - 1))

/-- The boolean value of the Python test `std_ret != 0` where
`std_ret = sqrt(var)`: it is `False` exactly when the variance is the finite
number 0 (then std is exactly 0.0); for NaN/inf variance the IEEE comparison
`NaN != 0` / `inf != 0` is `True`, and a (never occurring) negative finite
variance would give std = NaN, also `True`. -/
def stdNeZero : V → Bool
  | .num q => decide (q ≠ 0)
  | _ => true

/-! ### Real-valued layer for the square-root statistics

`annual_volatility` and `sharpe_ratio` involve `np.sqrt`, whose exact value
on a rational is in general irrational, so these two statistics live in a
copy of `V` whose finite payload is a real number. -/

/-- An IEEE-style value whose finite payload is a real number. -/
inductive RV where
  | fin (x : ℝ)
  | inf
  | ninf
  | nan

/-- Embed a `V` value into the real-valued layer. -/
def V.toRV : V → RV
  | .num q => .fin q
  | .inf => .inf
  | .ninf => .ninf
  | .nan => .nan

/-- `np.sqrt` on an IEEE value: sqrt of a negative number is NaN,
sqrt(inf) = inf, sqrt(-inf) = NaN, NaN propagates. -/
noncomputable def RV.sqrt : RV → RV
  | .fin x => if x < 0 then .nan else .fin (Real.sqrt x)
  | .inf => .inf
  | .ninf => .nan
  | .nan => .nan

/-- IEEE multiplication in the real-valued layer (NaN propagates;
0 * (±inf) = NaN). -/
noncomputable def RV.mul : RV → RV → RV
  | .nan, _ => .nan
  | .fin a, b =>
      match b with
      | .nan => .nan
      | .fin c => .fin (a * c)
      | .inf => if a = 0 then .nan else if 0 < a then .inf else .ninf
      | .ninf => if a = 0 then .nan else if 0 < a then .ninf else .inf
  | .inf, b =>
      match b with
      | .nan => .nan
      | .fin c => if c = 0 then .nan else if 0 < c then .inf else .ninf
      | .inf => .inf
      | .ninf => .ninf
  | .ninf, b =>
      match b with
      | .nan => .nan
      | .fin c => if c = 0 then .nan else if 0 < c then .ninf else .inf
      | .inf => .ninf
      | .ninf => .inf

/-- IEEE division in the real-valued layer (NaN propagates; x/0 = ±inf by
the sign of x; finite/inf = 0; inf/inf = NaN). -/
noncomputable def RV.div : RV → RV → RV
  | .nan, _ => .nan
  | .fin a, b =>
      match b with
      | .nan => .nan
      | .fin c =>
          if c = 0 then (if a = 0 then .nan else if 0 < a then .inf else .ninf)
          else .fin (a / c)
      | .inf => .fin 0
      | .ninf => .fin 0
  | .inf, b =>
      match b with
      | .nan => .nan
      | .fin c => if 0 ≤ c then .inf else .ninf
      | .inf => .nan
      | .ninf => .nan
  | .ninf, b =>
      match b with
      | .nan => .nan
      | .fin c => if 0 ≤ c then .ninf else .inf
      | .inf => .nan
      | .ninf => .nan

/-- Decidable equality for `Except` results (not provided by the core
library), used to state concrete input/output facts. -/
instance {ε α : Type} [DecidableEq ε] [DecidableEq α] : DecidableEq (Except ε α) := fun a b =>
  match a, b with
  | .ok x, .ok y =>
      if h : x = y then .isTrue (by rw [h])
      else .isFalse (by intro hc; cases hc; exact h rfl)
  | .error x, .error y =>
      if h : x = y then .isTrue (by rw [h])
      else .isFalse (by intro hc; cases hc; exact h rfl)
  | .ok _, .error _ => .isFalse (by intro hc; cases hc)
  | .error _, .ok _ => .isFalse (by intro hc; cases hc)

/-! ### `annualization_factor` (src/backtester.py lines 14-24) -/

/-- The dictionary lookup `mapping.get(c, 252)` with
`mapping = {'D': 252, 'B': 252, 'H': 252 * 6.5, 'T': 252 * 6.5 * 4}`. -/
def annFactorChar (c : Char) : ℚ :=
  if c = 'D' then 252
  else if c = 'B' then 252
  else if c = 'H' then 252 * 6.5
  else if c = 'T' then 252 * 6.5 * 4
  else 252

/-- `annualization_factor(freq)`: returns `mapping.get(freq[0], 252)`.
`freq[0]` on the empty string raises IndexError, modelled as `none`. -/
def annualization_factor (freq : String) : Option ℚ :=
  match freq.data with
  | [] => none
  | c :: _ => some (annFactorChar c)

/-! ### DataFrame model and `pd.infer_freq` -/

/-- A pandas DataFrame as used by `compute_performance`: a timestamp index
(modelled as integer minutes) and named columns of IEEE values.  Column
assignment `df[name] = vals` mutates the frame; `compute_performance`
therefore threads the frame through and returns the mutated frame alongside
the performance record, which makes the mutation observable. -/
structure Df where
  index : List ℤ
  cols : List (String × List V)
deriving DecidableEq, Repr

/-- `df[name]`: the first column with the given name (empty if absent;
the claims only ever read columns that exist). -/
def getCol (df : Df) (name : String) : List V :=
  ((df.cols.find? (fun p => p.1 = name)).map Prod.snd).getD []

/-- `df[name] = vals`: replace the first column with the given name, or
append a new column at the end. -/
def setColGo (name : String) (vals : List V) :
    List (String × List V) → List (String × List V)
  | [] => [(name, vals)]
  | p :: r => if p.1 = name then (name, vals) :: r else p :: setColGo name vals r

/-- `df[name] = vals` on the frame. -/
def setCol (df : Df) (name : String) (vals : List V) : Df :=
  { df with cols := setColGo name vals df.cols }

/-- Errors raised by the pandas calls inside `compute_performance`. -/
inductive PdErr where
  | valueError
  | indexError
deriving DecidableEq, Repr

/-- Modelled: `pd.infer_freq(index)`, restricted to the behaviour the claims
exercise.  pandas raises ValueError when the index has fewer than 3 dates.
Otherwise, with the index in minutes, an equal consecutive gap of one day
infers 'D', one hour 'H', 15 minutes '15T', one minute 'T'; irregular
spacing infers nothing (`None`).  Other regular spacings (not exercised by
any claim) are also mapped to `None`; the pandas codes they would produce
('2D', '7T', ...) start with a digit and select the same default factor 252
downstream, so the observable behaviour agrees. -/
def inferFreq (index : List ℤ) : Except PdErr (Option String) :=
  if index.length < 3 then .error .valueError
  else
    let gaps := List.zipWith (fun a b => a - b) index.tail index.dropLast
    match gaps with
    | [] => .ok none
    | g :: rest =>
        if rest.all (fun x => x = g) then
          if g = 1440 then .ok (some "D")
          else if g = 60 then .ok (some "H")
          else if g = 15 then .ok (some "15T")
          else if g = 1 then .ok (some "T")
          else .ok none
        else .ok none

/-! ### The derived series of `compute_performance` (lines 35-41) -/

/-- Line 35: `df['price_ret'] = df[price_col].pct_change().fillna(0)`. -/
def priceRetOf (prices : List V) : List V := fillna0 (pctChange prices)

/-- Line 38: `df['strat_ret'] = df[signal_col].shift(1).fillna(0) * df['price_ret']`. -/
def stratRetOf (prices signals : List V) : List V :=
  List.zipWith V.mul (fillna0 (shift1 signals)) (priceRetOf prices)

/-- Line 41: `df['equity'] = (1 + df['strat_ret']).cumprod() * capital`. -/
def equityOf (prices signals : List V) (capital : ℚ) : List V :=
  (cumprod ((stratRetOf prices signals).map (fun s => V.add (V.num 1) s))).map
    (fun v => V.mul v (V.num capital))

/-- Lines 57-59: running max, drawdown, and its minimum. -/
def maxDdOf (equity : List V) : V :=
  let running_max := cummax equity
  let drawdown := List.zipWith (fun e m => V.sub (V.div e m) (V.num 1)) equity running_max
  minSkipna drawdown

/-- Line 53: `ann_vol = std_ret * np.sqrt(ann_factor)` where
`std_ret = sqrt(varF rets)`. -/
noncomputable def annVolOf (rets : List V) (annFac : ℚ) : RV :=
  RV.mul (RV.sqrt (V.toRV (varF rets))) (RV.sqrt (RV.fin annFac))

/-- Line 54: `sharpe = (mean_ret / std_ret) * np.sqrt(ann_factor) if std_ret != 0 else np.nan`. -/
noncomputable def sharpeOf (rets : List V) (annFac : ℚ) : RV :=
  if stdNeZero (varF rets) then
    RV.mul (RV.div (V.toRV (meanF rets)) (RV.sqrt (V.toRV (varF rets))))
      (RV.sqrt (RV.fin annFac))
  else RV.nan

/-- The dict returned by `compute_performance` (lines 61-69).  The
`sharpe_ratio` key is the `sharpe` field here. -/
structure Perf where
  total_return : V
  annual_return : V
  annual_volatility : RV
  sharpe : RV
  max_drawdown : V
  equity_series : List V
  returns_series : List V

/-- `compute_performance(df, signal_col, price_col, capital)`
(src/backtester.py lines 26-69), with the line-by-line column reads and
writes of the source, returning the performance record together with the
mutated frame.  The exponent of `ann_ret` is the (always integral)
annualization factor taken as a natural number. -/
noncomputable def compute_performance (df : Df) (signal_col : String)
    (price_col : String) (capital : ℚ) : Except PdErr (Perf × Df) :=
  -- line 35
  let df := setCol df "price_ret" (priceRetOf (getCol df price_col))
  -- line 38
  let df := setCol df "strat_ret"
    (List.zipWith V.mul (fillna0 (shift1 (getCol df signal_col)))
      (getCol df "price_ret"))
  -- line 41
  let df := setCol df "equity"
    ((cumprod ((getCol df "strat_ret").map (fun s => V.add (V.num 1) s))).map
      (fun v => V.mul v (V.num capital)))
  -- line 44: `df['equity'].iloc[-1]` raises IndexError on an empty frame
  match (getCol df "equity").getLast? with
  | none => .error .indexError
  | some lastEq =>
    let total_ret := V.sub (V.div lastEq (V.num capital)) (V.num 1)
    -- lines 45-46: mean and std of strat_ret; std is recomputed inside
    -- `annVolOf`/`sharpeOf` from the same series (same value)
    let mean_ret := meanF (getCol df "strat_ret")
    -- lines 49-50
    match inferFreq df.index with
    | .error e => .error e
    | .ok freqOpt =>
      let freq := freqOpt.getD "D"
      match annualization_factor freq with
      | none => .error .indexError
      | some annFac =>
        -- lines 52-54
        let ann_ret := V.sub (V.powN (V.add (V.num 1) mean_ret) annFac.num.toNat) (V.num 1)
        let ann_vol := annVolOf (getCol df "strat_ret") annFac
        let sharpe := sharpeOf (getCol df "strat_ret") annFac
        -- lines 57-59
        let max_dd := maxDdOf (getCol df "equity")
        .ok ({ total_return := total_ret
             , annual_return := ann_ret
             , annual_volatility := ann_vol
             , sharpe := sharpe
             , max_drawdown := max_dd
             , equity_series := getCol df "equity"
             , returns_series := getCol df "strat_ret" }, df)

/-! ### Spec-side definitions and concrete inputs used by the claims -/

/-- Running maximum scan over rationals with starting value `m`
(the value of pandas `cummax` on a NaN-free series, rational layer). -/
def scanMax (m : ℚ) : List ℚ → List ℚ
  | [] => []
  | x :: r => (max m x) :: scanMax (max m x) r

/-- Running maximum of a rational series, seeded with its own head. -/
def scanMax0 : List ℚ → List ℚ
  | [] => []
  | x :: r => x :: scanMax x r

/-- The spec's `running_max[i] = max(equity[0..i])`: the fold of `max` over
the prefix `equity[0..i]`, seeded with `equity[0]` (which lies in every such
prefix, so the seed does not alter the value). -/
def specRunMax (l : List ℚ) (i : ℕ) : ℚ :=
  (l.take (i + 1)).foldl max (l.getD 0 0)

/-- The spec's drawdown series `drawdown[i] = equity[i] / running_max[i] - 1`
for `i` over all indices. -/
def specDrawdown (l : List ℚ) : List ℚ :=
  (List.range l.length).map (fun i => l.getD i 0 / specRunMax l i - 1)

/-- The spec's `max_drawdown = min(drawdown[i])` over all `i` (`none` for an
empty series). -/
def specMaxDd (l : List ℚ) : Option ℚ := (specDrawdown l).min?

/-- The concrete frame of the spec's worked scenario: daily timestamps,
prices [100, 110, 99, 99, 108.9] and signals [1, 1, -1, 0, 0]. -/
def c2Df : Df :=
  { index := [0, 1440, 2880, 4320, 5760]
  , cols := [("Close", ([100, 110, 99, 99, 1089/10] : List ℚ).map V.num),
             ("signal", ([1, 1, -1, 0, 0] : List ℚ).map V.num)] }

/-- A three-day frame whose first price is 0, with a long signal
throughout. -/
def c7Df : Df :=
  { index := [0, 1440, 2880]
  , cols := [("Close", ([0, 1, 2] : List ℚ).map V.num),
             ("signal", ([1, 1, 1] : List ℚ).map V.num)] }

/-- A three-day frame with prices [1, 2, 4] and a long signal throughout. -/
def c8Df : Df :=
  { index := [0, 1440, 2880]
  , cols := [("Close", ([1, 2, 4] : List ℚ).map V.num),
             ("signal", ([1, 1, 1] : List ℚ).map V.num)] }

/-- The frame `c8Df` as it stands after `compute_performance` has run on it:
the three derived columns have been written into it. -/
def c8DfOut : Df :=
  { index := [0, 1440, 2880]
  , cols := [("Close", ([1, 2, 4] : List ℚ).map V.num),
             ("signal", ([1, 1, 1] : List ℚ).map V.num),
             ("price_ret", ([0, 1, 1] : List ℚ).map V.num),
             ("strat_ret", ([0, 1, 1] : List ℚ).map V.num),
             ("equity", ([1, 2, 4] : List ℚ).map V.num)] }

/-- A one-row frame (single price bar). -/
def c10Df : Df :=
  { index := [0], cols := [("Close", [V.num 5]), ("signal", [V.num 1])] }

/-! ### Evaluation lemmas

Small rewrite lemmas used to evaluate the model on concrete inputs (kernel
reduction is unavailable for `ℚ` arithmetic, so concrete runs are carried
out by `simp`/`norm_num`). -/

@[simp] theorem V.neg_num (a : ℚ) : V.neg (.num a) = .num (-a) := rfl

@[simp] theorem V.add_num_num (a b : ℚ) : V.add (.num a) (.num b) = .num (a + b) := rfl

@[simp] theorem V.sub_num_num (a b : ℚ) : V.sub (.num a) (.num b) = .num (a - b) := by
  simp [V.sub, V.neg, sub_eq_add_neg]

@[simp] theorem V.mul_num_num (a b : ℚ) : V.mul (.num a) (.num b) = .num (a * b) := rfl

@[simp] theorem V.div_num_num (a : ℚ) {b : ℚ} (h : b ≠ 0) :
    V.div (.num a) (.num b) = .num (a / b) := by
  simp [V.div, h]

@[simp] theorem V.max2_num_num (a b : ℚ) : V.max2 (.num a) (.num b) = .num (max a b) := rfl

@[simp] theorem V.min2_num_num (a b : ℚ) : V.min2 (.num a) (.num b) = .num (min a b) := rfl

@[simp] theorem fillna0_nil : fillna0 [] = [] := rfl

@[simp] theorem fillna0_num_cons (a : ℚ) (l : List V) :
    fillna0 (V.num a :: l) = V.num a :: fillna0 l := by simp [fillna0]

@[simp] theorem fillna0_nan_cons (l : List V) :
    fillna0 (V.nan :: l) = V.num 0 :: fillna0 l := by simp [fillna0]

@[simp] theorem fillna0_inf_cons (l : List V) :
    fillna0 (V.inf :: l) = V.inf :: fillna0 l := by simp [fillna0]

@[simp] theorem fillna0_ninf_cons (l : List V) :
    fillna0 (V.ninf :: l) = V.ninf :: fillna0 l := by simp [fillna0]

@[simp] theorem V.add_nan_left (b : V) : V.add .nan b = .nan := by cases b <;> rfl

@[simp] theorem V.add_nan_right (a : V) : V.add a .nan = .nan := by cases a <;> rfl

@[simp] theorem V.sub_nan_left (b : V) : V.sub .nan b = .nan := by cases b <;> rfl

@[simp] theorem V.sub_nan_right (a : V) : V.sub a .nan = .nan := by cases a <;> rfl

@[simp] theorem V.mul_nan_left (b : V) : V.mul .nan b = .nan := by cases b <;> rfl

@[simp] theorem V.mul_nan_right (a : V) : V.mul a .nan = .nan := by cases a <;> rfl

@[simp] theorem V.div_nan_left (b : V) : V.div .nan b = .nan := by cases b <;> rfl

@[simp] theorem V.div_nan_right (a : V) : V.div a .nan = .nan := by cases a <;> rfl

@[simp] theorem V.num_ne_nan (a : ℚ) : V.num a ≠ V.nan := fun h => V.noConfusion h

@[simp] theorem V.inf_ne_nan : V.inf ≠ V.nan := fun h => V.noConfusion h

@[simp] theorem V.ninf_ne_nan : V.ninf ≠ V.nan := fun h => V.noConfusion h

@[simp] theorem V.notNan_num (a : ℚ) : V.notNan (.num a) = true := rfl

@[simp] theorem V.notNan_inf : V.notNan .inf = true := rfl

@[simp] theorem V.notNan_ninf : V.notNan .ninf = true := rfl

@[simp] theorem V.notNan_nan : V.notNan .nan = false := rfl

@[simp] theorem V.powN_num (a : ℚ) : ∀ n, V.powN (.num a) n = .num (a ^ n)
  | 0 => by simp [V.powN]
  | _ + 1 => rfl

@[simp] theorem V.add_num_inf (a : ℚ) : V.add (.num a) .inf = .inf := rfl

@[simp] theorem V.add_inf_num (b : ℚ) : V.add .inf (.num b) = .inf := rfl

@[simp] theorem V.sub_inf_num (b : ℚ) : V.sub .inf (.num b) = .inf := rfl

@[simp] theorem V.div_num_zero_pos {a : ℚ} (h : 0 < a) : V.div (.num a) (.num 0) = .inf := by
  simp [V.div, h, h.ne']

@[simp] theorem V.div_inf_num {b : ℚ} (h : 0 ≤ b) : V.div .inf (.num b) = .inf := by
  simp [V.div, h]

@[simp] theorem V.mul_num_inf {a : ℚ} (h : 0 < a) : V.mul (.num a) .inf = .inf := by
  simp [V.mul, h, h.ne']

@[simp] theorem V.mul_inf_num {b : ℚ} (h : 0 < b) : V.mul .inf (.num b) = .inf := by
  simp [V.mul, h, h.ne']

@[simp] theorem V.mul_inf_inf : V.mul .inf .inf = .inf := rfl

/-! ### Claims -/

/-- Claim C3: the claim states that a sub-hourly (e.g. 15-minute) frequency
maps to 6552.  The code dispatches on `freq[0]` only, so the pandas
frequency code of 15-minute bars, '15T', selects the default 252 — even
though the code's own comment labels the 6552 entry "15-minute bars".  Only
a code whose first character is 'T' (pandas minutely) selects 6552. -/
theorem c3_annualization_factor_15T :
    annualization_factor "15T" = some 252
    ∧ annualization_factor "T" = some 6552
    ∧ (252 : ℚ) ≠ 6552 := by
  refine ⟨by decide, ?_, by norm_num⟩
  have h : annualization_factor "T" = some ((252 : ℚ) * 6.5 * 4) := rfl
  rw [h]
  norm_num

/-- Claim C9: `annualization_factor` dispatches on only the first character
of the frequency string: the tail is ignored, every non-empty string whose
first character is not 'D', 'B', 'H' or 'T' (such as '15T') yields the
default 252, and the empty string is undefined (IndexError, modelled as
`none`) rather than the default. -/
theorem c9_first_char_dispatch :
    (∀ (c : Char) (rest rest' : List Char),
      annualization_factor (String.mk (c :: rest))
        = annualization_factor (String.mk (c :: rest')))
    ∧ (∀ (c : Char) (rest : List Char), c ≠ 'D' → c ≠ 'B' → c ≠ 'H' → c ≠ 'T' →
      annualization_factor (String.mk (c :: rest)) = some 252)
    ∧ annualization_factor "" = none := by
  refine ⟨fun c rest rest' => rfl, fun c rest h1 h2 h3 h4 => ?_, rfl⟩
  simp [annualization_factor, annFactorChar, h1, h2, h3, h4]

/-- Witness for C9 at concrete inputs: '15T' ignores its tail and returns
the default, 'W-SUN'-style codes return the default, and the empty string
is undefined. -/
theorem c9_first_char_dispatch_witness :
    annualization_factor (String.mk ['1', '5', 'T'])
      = annualization_factor (String.mk ['1'])
    ∧ annualization_factor (String.mk ['W', '-', 'S', 'U', 'N']) = some 252
    ∧ annualization_factor "" = none :=
  ⟨c9_first_char_dispatch.1 '1' ['5', 'T'] [],
   c9_first_char_dispatch.2.1 'W' ['-', 'S', 'U', 'N']
     (by decide) (by decide) (by decide) (by decide),
   c9_first_char_dispatch.2.2⟩

/-- Claim C2, counterexample: on the spec's worked scenario the code does
not produce the claimed equity curve [1.0, 1.0, 0.90, 0.90, 0.90].  (The
spec's scenario table lags the signal by two periods; the code lags it by
one, as the spec's own lag rule demands.) -/
theorem c2_counterexample :
    (compute_performance c2Df "signal" "Close" 1).map (fun r => r.1.equity_series)
      ≠ .ok (([1, 1, 9/10, 9/10, 9/10] : List ℚ).map V.num) := by
  have h : (compute_performance c2Df "signal" "Close" 1).map (fun r => r.1.equity_series)
      = .ok (([1, 11/10, 99/100, 99/100, 99/100] : List ℚ).map V.num) := by
    simp [compute_performance, c2Df, getCol, setCol, setColGo, inferFreq,
      annualization_factor, annFactorChar, priceRetOf, pctChange, shift1,
      List.dropLast, cumprod, cumprodGo, Except.map]
    norm_num
  rw [h]
  simp only [ne_eq, Except.ok.injEq, List.map_cons, List.map_nil, List.cons.injEq,
    V.num.injEq]
  norm_num

/-- Claim C2, amended: on prices [100, 110, 99, 99, 108.9],
signals [1, 1, -1, 0, 0] and capital 1, the code produces
equity = [1.0, 1.10, 0.99, 0.99, 0.99], total_return = -0.01 and
max_drawdown = -0.10 (strategy returns [0, 0.10, -0.10, 0, 0] under the
one-period lag). -/
theorem c2_scenario_actual :
    (compute_performance c2Df "signal" "Close" 1).map (fun r => r.1.equity_series)
      = .ok (([1, 11/10, 99/100, 99/100, 99/100] : List ℚ).map V.num)
    ∧ (compute_performance c2Df "signal" "Close" 1).map (fun r => r.1.total_return)
      = .ok (V.num (-1/100))
    ∧ (compute_performance c2Df "signal" "Close" 1).map (fun r => r.1.max_drawdown)
      = .ok (V.num (-1/10))
    ∧ (compute_performance c2Df "signal" "Close" 1).map (fun r => r.1.returns_series)
      = .ok (([0, 1/10, -1/10, 0, 0] : List ℚ).map V.num) := by
  refine ⟨?_, ?_, ?_, ?_⟩ <;>
    · simp [compute_performance, c2Df, getCol, setCol, setColGo, inferFreq,
        annualization_factor, annFactorChar, priceRetOf, pctChange, shift1,
        List.dropLast, cumprod, cumprodGo, Except.map, maxDdOf, cummax,
        cummaxGo, minSkipna]
      all_goals norm_num

/-- Claim C7, counterexample: with a zero prior price the code raises no
error and returns normally, with +infinity propagated through the equity
curve into total_return — there is no NumericError and no sentinel for the
affected statistics. -/
theorem c7_counterexample :
    (compute_performance c7Df "signal" "Close" 1).map (fun r => r.1.total_return)
      = .ok V.inf
    ∧ (compute_performance c7Df "signal" "Close" 1).map (fun r => r.1.equity_series)
      = .ok [V.num 1, V.inf, V.inf] := by
  refine ⟨?_, ?_⟩ <;>
    simp [compute_performance, c7Df, getCol, setCol, setColGo, inferFreq,
      annualization_factor, annFactorChar, priceRetOf, pctChange, shift1,
      List.dropLast, cumprod, cumprodGo, Except.map]

/-- Claim C7, amended: when a prior price is 0 the code signals nothing:
the period return is +infinity and it propagates silently into the
aggregated statistics (total_return = +infinity), for every positive
starting capital. -/
theorem c7_zero_price_propagates (c : ℚ) (hc : 0 < c) :
    (compute_performance c7Df "signal" "Close" c).map (fun r => r.1.total_return)
      = .ok V.inf := by
  simp [compute_performance, c7Df, getCol, setCol, setColGo, inferFreq,
    annualization_factor, annFactorChar, priceRetOf, pctChange, shift1,
    List.dropLast, cumprod, cumprodGo, Except.map, hc, hc.le, hc.ne']

/-- Witness for the amended C7 at capital 2. -/
theorem c7_zero_price_propagates_witness :
    (compute_performance c7Df "signal" "Close" 2).map (fun r => r.1.total_return)
      = .ok V.inf :=
  c7_zero_price_propagates 2 (by norm_num)

/-- Claim C10, counterexample: on a one-row input `compute_performance` does
not return total_return = 0 — it does not return at all:
`pd.infer_freq` raises ValueError (it needs at least 3 dates). -/
theorem c10_counterexample :
    (compute_performance c10Df "signal" "Close" 1).map (fun r => r.1.total_return)
      ≠ .ok (V.num 0) := by
  decide

/-- Claim C10, amended: a one-row input makes `compute_performance` raise
pandas' ValueError in frequency inference; the series derived before that
point are strat_ret = [0] and equity = [capital], the sample standard
deviation of the one-element return series is NaN, and the annualized
volatility and Sharpe ratio computed from it would also be NaN (not finite,
not zero) had execution continued. -/
theorem c10_one_row_raises :
    compute_performance c10Df "signal" "Close" 1 = .error .valueError
    ∧ stratRetOf [V.num 5] [V.num 1] = [V.num 0]
    ∧ equityOf [V.num 5] [V.num 1] 1 = [V.num 1]
    ∧ varF (stratRetOf [V.num 5] [V.num 1]) = V.nan
    ∧ annVolOf (stratRetOf [V.num 5] [V.num 1]) 252 = RV.nan
    ∧ sharpeOf (stratRetOf [V.num 5] [V.num 1]) 252 = RV.nan := by
  refine ⟨rfl, ?_, ?_, rfl, rfl, rfl⟩ <;>
    norm_num [stratRetOf, priceRetOf, pctChange, shift1, equityOf, cumprod,
      cumprodGo, List.dropLast]

/-- Claim C5: when the sample standard deviation of the strategy-return
series is a nonzero number (variance v > 0), the Sharpe ratio equals
(mean / std) * sqrt(annualization_factor); when it is zero the code takes
the `else np.nan` branch — no exception, and the result is the NaN
sentinel, distinct from every finite value (in particular from 0). -/
theorem c5_sharpe_policy (rets : List V) (f : ℚ) (hf : 0 ≤ f) :
    (∀ v m : ℚ, varF rets = V.num v → 0 < v → meanF rets = V.num m →
      sharpeOf rets f = RV.fin ((↑m / Real.sqrt ↑v) * Real.sqrt ↑f))
    ∧ (varF rets = V.num 0 →
      sharpeOf rets f = RV.nan ∧ ∀ x : ℝ, RV.nan ≠ RV.fin x) := by
  constructor
  · intro v m hv hvpos hm
    have hv0 : ¬ ((v : ℝ) < 0) := not_lt.mpr (by exact_mod_cast hvpos.le)
    have hs : Real.sqrt (v : ℝ) ≠ 0 :=
      ne_of_gt (Real.sqrt_pos.mpr (by exact_mod_cast hvpos))
    have hf0 : ¬ ((f : ℝ) < 0) := not_lt.mpr (by exact_mod_cast hf)
    simp [sharpeOf, hv, hm, stdNeZero, hvpos.ne', V.toRV, RV.sqrt, RV.div, RV.mul,
      hv0, hs, hf0]
  · intro h0
    refine ⟨by simp [sharpeOf, h0, stdNeZero], fun x h => RV.noConfusion h⟩

/-- Witness for C5: a two-element return series [0, 0.2] has variance 1/50
and mean 1/10, giving the formula value; the constant series [1, 1] has
variance 0 and Sharpe NaN. -/
theorem c5_sharpe_policy_witness :
    sharpeOf [V.num 0, V.num (2/10)] 252
      = RV.fin ((((1:ℚ)/10 : ℚ) : ℝ) / Real.sqrt (((1:ℚ)/50 : ℚ) : ℝ)
          * Real.sqrt (((252:ℚ) : ℝ)))
    ∧ sharpeOf [V.num 1, V.num 1] 252 = RV.nan := by
  constructor
  · exact (c5_sharpe_policy [V.num 0, V.num (2/10)] 252 (by norm_num)).1
      ((1:ℚ)/50) ((1:ℚ)/10)
      (by norm_num [varF, meanF]) (by norm_num) (by norm_num [meanF])
  · exact ((c5_sharpe_policy [V.num 1, V.num 1] 252 (by norm_num)).2
      (by norm_num [varF, meanF])).1

/-! ### Index lemmas for the lag rule -/

/-- `shift1` at a successor index reads the original previous entry. -/
theorem shift1_getElem_succ (xs : List V) (i : ℕ) (h : i + 1 < xs.length) :
    (shift1 xs)[i + 1]? = xs[i]? := by
  simp only [shift1, List.getElem?_cons_succ, List.dropLast_eq_take,
    List.getElem?_take]
  rw [if_pos (by omega)]

/-- `fillna0` at an index maps the original entry. -/
theorem fillna0_getElem (xs : List V) (i : ℕ) :
    (fillna0 xs)[i]? = Option.map (fun v => if v = V.nan then V.num 0 else v) xs[i]? := by
  simp [fillna0, List.getElem?_map]

/-- The length of `priceRetOf` equals that of its input. -/
theorem priceRetOf_length (xs : List V) : (priceRetOf xs).length = xs.length := by
  simp only [priceRetOf, fillna0, pctChange, shift1, List.length_map,
    List.length_zipWith, List.length_cons, List.length_dropLast]
  omega

/-- `price_ret[0] = 0` (pct_change yields NaN at index 0, fillna turns it
into 0). -/
theorem priceRet_getElem_zero (prices : List ℚ) (h : 0 < prices.length) :
    (priceRetOf (prices.map V.num))[0]? = some (V.num 0) := by
  cases prices with
  | nil => simp at h
  | cons p r =>
    simp [priceRetOf, pctChange, shift1, fillna0]

/-- `price_ret[i+1] = price[i+1] / price[i] - 1` when the prior price is
nonzero. -/
theorem priceRet_getElem_succ (prices : List ℚ) (i : ℕ) (h : i + 1 < prices.length)
    (hnz : prices.getD i 0 ≠ 0) :
    (priceRetOf (prices.map V.num))[i + 1]?
      = some (V.num (prices.getD (i + 1) 0 / prices.getD i 0 - 1)) := by
  have hi : i < prices.length := by omega
  have h1 : (prices.map V.num)[i + 1]? = some (V.num (prices.getD (i + 1) 0)) := by
    rw [List.getElem?_map, List.getElem?_eq_getElem (by simpa using h),
      List.getD_eq_getElem prices 0 h]
    rfl
  have h2 : (prices.map V.num)[i]? = some (V.num (prices.getD i 0)) := by
    rw [List.getElem?_map, List.getElem?_eq_getElem (by simpa using hi),
      List.getD_eq_getElem prices 0 hi]
    rfl
  have h3 : (shift1 (prices.map V.num))[i + 1]? = some (V.num (prices.getD i 0)) := by
    rw [shift1_getElem_succ _ _ (by simpa using h), h2]
  simp only [priceRetOf, fillna0_getElem, pctChange, List.getElem?_zipWith', h1, h3,
    Option.map_some, Option.bind_some]
  have hnz' : prices[i]?.getD 0 ≠ 0 := by simpa using hnz
  simp [hnz']

/-- `strat_ret[0] = 0`: there is no prior signal. -/
theorem stratRet_getElem_zero (prices signals : List ℚ)
    (hp : 0 < prices.length) :
    (stratRetOf (prices.map V.num) (signals.map V.num))[0]? = some (V.num 0) := by
  have hA : (fillna0 (shift1 (signals.map V.num)))[0]? = some (V.num 0) := by
    simp [fillna0_getElem, shift1]
  simp only [stratRetOf, List.getElem?_zipWith', hA, priceRet_getElem_zero prices hp,
    Option.map_some, Option.bind_some]
  norm_num

/-- `strat_ret[i+1] = signal[i] * price_ret[i+1]`: the lag rule, pointwise. -/
theorem stratRet_getElem_succ (prices signals : List ℚ) (i : ℕ)
    (hL : signals.length = prices.length) (h : i + 1 < prices.length)
    (hnz : prices.getD i 0 ≠ 0) :
    (stratRetOf (prices.map V.num) (signals.map V.num))[i + 1]?
      = some (V.num (signals.getD i 0 * (prices.getD (i + 1) 0 / prices.getD i 0 - 1))) := by
  have hi : i < signals.length := by omega
  have hA : (fillna0 (shift1 (signals.map V.num)))[i + 1]?
      = some (V.num (signals.getD i 0)) := by
    rw [fillna0_getElem, shift1_getElem_succ _ _ (by simpa using (by omega : i + 1 < signals.length)),
      List.getElem?_map, List.getElem?_eq_getElem (by simpa using hi),
      List.getD_eq_getElem signals 0 hi]
    simp
  simp only [stratRetOf, List.getElem?_zipWith', hA,
    priceRet_getElem_succ prices i h hnz, Option.map_some, Option.bind_some]
  simp

/-- Claim C1: the lag rule.  For aligned series (with nonzero prices, per
the data model): strat_ret[0] = 0; for every i ≥ 1,
strat_ret[i] = signal[i-1] * price_return[i] with
price_return[i] = price[i]/price[i-1] - 1; and if every signal except
possibly the one at index k is zero, the strategy return is 0 at every
index other than k + 1. -/
theorem c1_lag_rule (prices signals : List ℚ)
    (hL : signals.length = prices.length)
    (hnz : ∀ q ∈ prices, q ≠ 0) :
    (0 < prices.length →
      (stratRetOf (prices.map V.num) (signals.map V.num))[0]? = some (V.num 0))
    ∧ (∀ i : ℕ, i + 1 < prices.length →
      (stratRetOf (prices.map V.num) (signals.map V.num))[i + 1]?
        = some (V.num (signals.getD i 0 * (prices.getD (i + 1) 0 / prices.getD i 0 - 1))))
    ∧ (∀ k : ℕ, (∀ j : ℕ, j < signals.length → j ≠ k → signals.getD j 0 = 0) →
      ∀ i : ℕ, i < prices.length → i ≠ k + 1 →
      (stratRetOf (prices.map V.num) (signals.map V.num))[i]? = some (V.num 0)) := by
  have hd : ∀ i : ℕ, i < prices.length → prices.getD i 0 ≠ 0 := by
    intro i hi
    rw [List.getD_eq_getElem prices 0 hi]
    exact hnz _ (List.getElem_mem hi)
  refine ⟨fun hp => stratRet_getElem_zero prices signals hp,
    fun i h => stratRet_getElem_succ prices signals i hL h (hd i (by omega)), ?_⟩
  intro k hk i hi hik
  cases i with
  | zero => exact stratRet_getElem_zero prices signals (by omega)
  | succ j =>
    rw [stratRet_getElem_succ prices signals j hL hi (hd j (by omega))]
    rw [hk j (by omega) (by omega)]
    norm_num

/-- Witness for C1 on prices [100, 110, 121] and signals [0, 1, 0] (single
nonzero signal at k = 1): strat_ret[0] = 0, strat_ret[1] = 0, and
strat_ret[2] = 1 * (121/110 - 1). -/
theorem c1_lag_rule_witness :
    (stratRetOf (([100, 110, 121] : List ℚ).map V.num)
        (([0, 1, 0] : List ℚ).map V.num))[0]? = some (V.num 0)
    ∧ (stratRetOf (([100, 110, 121] : List ℚ).map V.num)
        (([0, 1, 0] : List ℚ).map V.num))[1]? = some (V.num 0)
    ∧ (stratRetOf (([100, 110, 121] : List ℚ).map V.num)
        (([0, 1, 0] : List ℚ).map V.num))[2]?
      = some (V.num ((1 : ℚ) * ((121 : ℚ)/110 - 1))) := by
  have h := c1_lag_rule [100, 110, 121] [0, 1, 0] rfl (by norm_num)
  exact ⟨h.1 (by norm_num), h.2.2 1 (by decide) 1 (by norm_num) (by norm_num),
    h.2.1 1 (by norm_num)⟩

/-! ### Replicate lemmas for the zero-signal claim -/

/-- The length of the strategy-return series equals the common input length
(for nonempty aligned inputs). -/
theorem stratRetOf_length (prices signals : List ℚ)
    (hL : signals.length = prices.length) (hne : prices ≠ []) :
    (stratRetOf (prices.map V.num) (signals.map V.num)).length = prices.length := by
  have h1 : prices.length ≠ 0 := fun h => hne (List.length_eq_zero.mp h)
  simp only [stratRetOf, List.length_zipWith, fillna0, List.length_map, shift1,
    List.length_cons, List.length_dropLast, priceRetOf_length, pctChange,
    List.length_zipWith]
  omega

/-- With all signals zero (and nonzero prices) the strategy-return series is
identically zero. -/
theorem stratRetOf_all_zero (prices signals : List ℚ)
    (hne : prices ≠ []) (hnz : ∀ q ∈ prices, q ≠ 0)
    (hL : signals.length = prices.length) (hz : ∀ s ∈ signals, s = 0) :
    stratRetOf (prices.map V.num) (signals.map V.num)
      = List.replicate prices.length (V.num 0) := by
  have hd : ∀ i : ℕ, i < prices.length → prices.getD i 0 ≠ 0 := by
    intro i hi
    rw [List.getD_eq_getElem prices 0 hi]
    exact hnz _ (List.getElem_mem hi)
  have hlen := stratRetOf_length prices signals hL hne
  apply List.ext_getElem?
  intro i
  rw [List.getElem?_replicate]
  by_cases hi : i < prices.length
  · rw [if_pos hi]
    cases i with
    | zero => exact stratRet_getElem_zero prices signals (by omega)
    | succ j =>
      rw [stratRet_getElem_succ prices signals j hL hi (hd j (by omega))]
      have hsj : signals.getD j 0 = 0 := by
        have hj : j < signals.length := by omega
        rw [List.getD_eq_getElem signals 0 hj]
        exact hz _ (List.getElem_mem hj)
      rw [hsj]
      norm_num
  · rw [if_neg hi]
    exact List.getElem?_eq_none (by omega)

/-- `cumprod` of an all-ones series is all ones. -/
theorem cumprodGo_replicate_one (n : ℕ) :
    cumprodGo (V.num 1) (List.replicate n (V.num 1)) = List.replicate n (V.num 1) := by
  induction n with
  | zero => rfl
  | succ k ih =>
    have h : V.mul (V.num 1) (V.num 1) = V.num 1 := by norm_num
    simp only [List.replicate_succ, cumprodGo, h, ih]

/-- `cummax` of a constant series is that series. -/
theorem cummaxGo_replicate (n : ℕ) (c : ℚ) :
    cummaxGo (some (V.num c)) (List.replicate n (V.num c)) = List.replicate n (V.num c) := by
  induction n with
  | zero => rfl
  | succ k ih =>
    have h : V.max2 (V.num c) (V.num c) = V.num c := by simp
    simp only [List.replicate_succ, cummaxGo, if_neg (V.num_ne_nan c), h, ih]

/-- `Series.min` of a constant finite series is that constant (nonempty). -/
theorem minSkipna_replicate (n : ℕ) (hn : n ≠ 0) (c : ℚ) :
    minSkipna (List.replicate n (V.num c)) = V.num c := by
  obtain ⟨m, rfl⟩ : ∃ m, n = m + 1 := ⟨n - 1, by omega⟩
  have hf : (List.replicate (m + 1) (V.num c)).filter V.notNan
      = List.replicate (m + 1) (V.num c) := by
    rw [List.filter_replicate]
    simp
  rw [minSkipna, hf, List.replicate_succ]
  induction m with
  | zero => rfl
  | succ k ih =>
    have h : V.min2 (V.num c) (V.num c) = V.num c := by simp
    simpa [List.replicate_succ, h] using ih

/-- Maximum drawdown of a constant positive equity curve is zero. -/
theorem maxDdOf_replicate (n : ℕ) (hn : n ≠ 0) (c : ℚ) (hc : 0 < c) :
    maxDdOf (List.replicate n (V.num c)) = V.num 0 := by
  obtain ⟨m, rfl⟩ : ∃ m, n = m + 1 := ⟨n - 1, by omega⟩
  have hmax : cummax (List.replicate (m + 1) (V.num c))
      = List.replicate (m + 1) (V.num c) := by
    simp only [cummax, List.replicate_succ, cummaxGo, if_neg (V.num_ne_nan c)]
    exact congrArg (V.num c :: ·) (cummaxGo_replicate m c)
  have hdd : List.zipWith (fun e m => V.sub (V.div e m) (V.num 1))
      (List.replicate (m + 1) (V.num c)) (List.replicate (m + 1) (V.num c))
      = List.replicate (m + 1) (V.num 0) := by
    rw [List.zipWith_replicate, min_self]
    have h : V.sub (V.div (V.num c) (V.num c)) (V.num 1) = V.num 0 := by
      rw [V.div_num_num c hc.ne']
      rw [div_self hc.ne']
      norm_num
    rw [h]
  rw [maxDdOf, hmax, hdd]
  exact minSkipna_replicate (m + 1) (by omega) 0

/-- Claim C6: if every signal is 0 (prices nonzero per the data model,
capital positive), the equity curve is constantly the starting capital and
the maximum drawdown is 0. -/
theorem c6_zero_signals (prices : List ℚ) (hne : prices ≠ [])
    (hnz : ∀ q ∈ prices, q ≠ 0) (signals : List ℚ)
    (hL : signals.length = prices.length) (hz : ∀ s ∈ signals, s = 0)
    (c : ℚ) (hc : 0 < c) :
    equityOf (prices.map V.num) (signals.map V.num) c
      = List.replicate prices.length (V.num c)
    ∧ maxDdOf (equityOf (prices.map V.num) (signals.map V.num) c) = V.num 0 := by
  have hn0 : prices.length ≠ 0 := fun h => hne (List.length_eq_zero.mp h)
  have heq : equityOf (prices.map V.num) (signals.map V.num) c
      = List.replicate prices.length (V.num c) := by
    rw [equityOf, stratRetOf_all_zero prices signals hne hnz hL hz]
    rw [List.map_replicate]
    have h1 : V.add (V.num 1) (V.num 0) = V.num 1 := by norm_num
    rw [h1, cumprod, cumprodGo_replicate_one, List.map_replicate]
    have h2 : V.mul (V.num 1) (V.num c) = V.num c := by norm_num
    rw [h2]
  refine ⟨heq, ?_⟩
  rw [heq]
  exact maxDdOf_replicate prices.length hn0 c hc

/-- Witness for C6 on prices [100, 110, 121], signals [0, 0, 0],
capital 3/2. -/
theorem c6_zero_signals_witness :
    equityOf (([100, 110, 121] : List ℚ).map V.num)
        (([0, 0, 0] : List ℚ).map V.num) (3/2)
      = List.replicate 3 (V.num (3/2))
    ∧ maxDdOf (equityOf (([100, 110, 121] : List ℚ).map V.num)
        (([0, 0, 0] : List ℚ).map V.num) (3/2)) = V.num 0 :=
  c6_zero_signals [100, 110, 121] (by simp) (by norm_num) [0, 0, 0] rfl
    (by norm_num) (3/2) (by norm_num)

/-! ### Fold lemmas for the drawdown claim -/

/-- The seed is below a max-fold. -/
theorem le_foldlMax_init (xs : List ℚ) : ∀ m : ℚ, m ≤ xs.foldl max m := by
  induction xs with
  | nil => intro m; exact le_refl m
  | cons x r ih =>
    intro m
    exact le_trans (le_max_left m x) (ih (max m x))

/-- Every element is below a max-fold over its list. -/
theorem le_foldlMax_mem (xs : List ℚ) : ∀ m x : ℚ, x ∈ xs → x ≤ xs.foldl max m := by
  induction xs with
  | nil => intro m x hx; cases hx
  | cons y r ih =>
    intro m x hx
    rcases List.mem_cons.mp hx with h | h
    · subst h
      exact le_trans (le_max_right m x) (le_foldlMax_init r (max m x))
    · exact ih (max m y) x h

/-- A min-fold is below its seed. -/
theorem foldlMin_le_init (xs : List ℚ) : ∀ m : ℚ, xs.foldl min m ≤ m := by
  induction xs with
  | nil => intro m; exact le_refl m
  | cons x r ih =>
    intro m
    exact le_trans (ih (min m x)) (min_le_left m x)

/-- A min-fold is below every element of its list. -/
theorem foldlMin_le_mem (xs : List ℚ) : ∀ m x : ℚ, x ∈ xs → xs.foldl min m ≤ x := by
  induction xs with
  | nil => intro m x hx; cases hx
  | cons y r ih =>
    intro m x hx
    rcases List.mem_cons.mp hx with h | h
    · subst h
      exact le_trans (foldlMin_le_init r (min m x)) (min_le_right m x)
    · exact ih (min m y) x h

/-- `scanMax` preserves length. -/
theorem scanMax_length (xs : List ℚ) : ∀ m : ℚ, (scanMax m xs).length = xs.length := by
  induction xs with
  | nil => intro m; rfl
  | cons x r ih => intro m; simp [scanMax, ih]

/-- Every entry of `scanMax m xs` is at least `m`. -/
theorem scanMax_mem_le (xs : List ℚ) : ∀ m x : ℚ, x ∈ scanMax m xs → m ≤ x := by
  induction xs with
  | nil => intro m x hx; cases hx
  | cons y r ih =>
    intro m x hx
    rcases List.mem_cons.mp hx with h | h
    · subst h; exact le_max_left m y
    · exact le_trans (le_max_left m y) (ih (max m y) x h)

/-- `scanMax` computes prefix max-folds. -/
theorem scanMax_getElem (xs : List ℚ) :
    ∀ (m : ℚ) (i : ℕ), i < xs.length →
      (scanMax m xs)[i]? = some ((xs.take (i + 1)).foldl max m) := by
  induction xs with
  | nil => intro m i hi; simp at hi
  | cons x r ih =>
    intro m i hi
    cases i with
    | zero => simp [scanMax]
    | succ j =>
      rw [show scanMax m (x :: r) = (max m x) :: scanMax (max m x) r from rfl]
      rw [List.getElem?_cons_succ, ih (max m x) j (by simpa using hi)]
      simp

/-- `cummax` over a NaN-free (rational) series is `scanMax` seeded by the
running best. -/
theorem cummaxGo_map_num (xs : List ℚ) :
    ∀ m : ℚ, cummaxGo (some (V.num m)) (xs.map V.num) = (scanMax m xs).map V.num := by
  induction xs with
  | nil => intro m; rfl
  | cons x r ih =>
    intro m
    simp only [List.map_cons, cummaxGo, if_neg (V.num_ne_nan x), V.max2_num_num,
      scanMax, ih (max m x)]

/-- `cummax` over a rational series is `scanMax0`. -/
theorem cummax_map_num (e0 : ℚ) (rest : List ℚ) :
    cummax ((e0 :: rest).map V.num) = (scanMax0 (e0 :: rest)).map V.num := by
  simp only [cummax, List.map_cons, cummaxGo, if_neg (V.num_ne_nan e0), scanMax0,
    cummaxGo_map_num]

/-- The drawdown zip over rational series, with nonzero running maxima,
is the rational drawdown zip. -/
theorem zip_dd_map_num (xs : List ℚ) :
    ∀ ms : List ℚ, (∀ m ∈ ms, m ≠ 0) →
      List.zipWith (fun e m => V.sub (V.div e m) (V.num 1)) (xs.map V.num) (ms.map V.num)
        = (List.zipWith (fun e m => e / m - 1) xs ms).map V.num := by
  induction xs with
  | nil => intro ms h; simp
  | cons x r ih =>
    intro ms h
    cases ms with
    | nil => simp
    | cons m mr =>
      have hm : m ≠ 0 := h m (List.mem_cons_self m mr)
      simp only [List.map_cons, List.zipWith_cons_cons, V.div_num_num x hm,
        V.sub_num_num, ih mr (fun a ha => h a (List.mem_cons_of_mem m ha))]

/-- Min-folds over rational series commute with the embedding. -/
theorem foldl_min2_map_num (ds : List ℚ) :
    ∀ d : ℚ, List.foldl V.min2 (V.num d) (ds.map V.num) = V.num (ds.foldl min d) := by
  induction ds with
  | nil => intro d; rfl
  | cons y r ih =>
    intro d
    simp only [List.map_cons, List.foldl_cons, V.min2_num_num]
    exact ih (min d y)

/-- `Series.min` of a nonempty rational series is the min-fold. -/
theorem minSkipna_map_num (d : ℚ) (ds : List ℚ) :
    minSkipna ((d :: ds).map V.num) = V.num (ds.foldl min d) := by
  have hf : ((d :: ds).map V.num).filter V.notNan = (d :: ds).map V.num :=
    List.filter_eq_self.mpr (by
      intro a ha
      rcases List.mem_map.mp ha with ⟨q, _, rfl⟩
      rfl)
  rw [minSkipna, hf, List.map_cons]
  exact foldl_min2_map_num ds d

/-- The running maxima of a positive-headed series are positive. -/
theorem scanMax0_pos (e0 : ℚ) (rest : List ℚ) (hpos : 0 < e0) :
    ∀ m ∈ scanMax0 (e0 :: rest), 0 < m := by
  intro m hm
  rcases List.mem_cons.mp hm with h | h
  · subst h; exact hpos
  · exact lt_of_lt_of_le hpos (scanMax_mem_le rest e0 m h)

/-- `scanMax0` agrees with the spec's prefix maximum at every index. -/
theorem scanMax0_getElem (e0 : ℚ) (rest : List ℚ) (i : ℕ)
    (hi : i < (e0 :: rest).length) :
    (scanMax0 (e0 :: rest))[i]? = some (specRunMax (e0 :: rest) i) := by
  cases i with
  | zero => simp [scanMax0, specRunMax]
  | succ j =>
    have hj : j < rest.length := by simpa using hi
    rw [show scanMax0 (e0 :: rest) = e0 :: scanMax e0 rest from rfl,
      List.getElem?_cons_succ, scanMax_getElem rest e0 j hj]
    simp [specRunMax]

/-- `scanMax0` preserves length. -/
theorem scanMax0_length (l : List ℚ) : (scanMax0 l).length = l.length := by
  cases l with
  | nil => rfl
  | cons x r => simp [scanMax0, scanMax_length]

/-- The spec's drawdown at an in-range index. -/
theorem specDrawdown_getElem (l : List ℚ) (i : ℕ) (hi : i < l.length) :
    (specDrawdown l)[i]? = some (l.getD i 0 / specRunMax l i - 1) := by
  simp [specDrawdown, List.getElem?_map, List.getElem?_range, hi]

/-- The spec's drawdown series equals the code's (rational) drawdown zip. -/
theorem specDrawdown_eq_zip (e0 : ℚ) (rest : List ℚ) :
    specDrawdown (e0 :: rest)
      = List.zipWith (fun e m => e / m - 1) (e0 :: rest) (scanMax0 (e0 :: rest)) := by
  apply List.ext_getElem?
  intro i
  by_cases hi : i < (e0 :: rest).length
  · rw [specDrawdown_getElem _ _ hi, List.getElem?_zipWith',
      List.getElem?_eq_getElem hi, scanMax0_getElem e0 rest i hi,
      List.getD_eq_getElem _ 0 hi]
    rfl
  · have h1 : (e0 :: rest).length ≤ i := by omega
    have h2 : (specDrawdown (e0 :: rest)).length ≤ i := by
      simpa [specDrawdown] using h1
    have h3 : (List.zipWith (fun e m => e / m - 1) (e0 :: rest)
        (scanMax0 (e0 :: rest))).length ≤ i := by
      simpa [List.length_zipWith, scanMax0_length] using h1
    rw [List.getElem?_eq_none h2, List.getElem?_eq_none h3]

/-- Claim C4: the maximum drawdown the code computes equals the spec's
`min over i of equity[i] / max(equity[0..i]) - 1`; it is always ≤ 0; and it
equals 0 only if the equity curve never dips below a prior peak
(`equity[j] ≤ equity[i]` for all `j ≤ i`).  The equity curve starts at the
(positive) starting capital, hence the positive head. -/
theorem c4_max_drawdown (e0 : ℚ) (rest : List ℚ) (hpos : 0 < e0) :
    Option.map V.num (specMaxDd (e0 :: rest))
      = some (maxDdOf ((e0 :: rest).map V.num))
    ∧ (∀ q : ℚ, maxDdOf ((e0 :: rest).map V.num) = V.num q → q ≤ 0)
    ∧ (∀ q : ℚ, maxDdOf ((e0 :: rest).map V.num) = V.num q → q = 0 →
        ∀ i : ℕ, i < (e0 :: rest).length → ∀ j : ℕ, j ≤ i →
          (e0 :: rest).getD j 0 ≤ (e0 :: rest).getD i 0) := by
  have hmpos : ∀ m ∈ scanMax0 (e0 :: rest), 0 < m := scanMax0_pos e0 rest hpos
  have hmne : ∀ m ∈ scanMax0 (e0 :: rest), m ≠ 0 := fun m hm => (hmpos m hm).ne'
  have hd0 : e0 / e0 - 1 = 0 := by
    rw [div_self hpos.ne']
    norm_num
  have hsplit : List.zipWith (fun e m => e / m - 1) (e0 :: rest) (scanMax0 (e0 :: rest))
      = (e0 / e0 - 1) :: List.zipWith (fun e m => e / m - 1) rest (scanMax e0 rest) := rfl
  -- the code's pipeline, transported to rationals
  have hcode : maxDdOf ((e0 :: rest).map V.num)
      = V.num ((List.zipWith (fun e m => e / m - 1) rest (scanMax e0 rest)).foldl min 0) := by
    rw [maxDdOf, cummax_map_num, zip_dd_map_num _ _ hmne, hsplit, hd0, minSkipna_map_num]
  -- the spec's formula gives the same rational
  have hspec : specMaxDd (e0 :: rest)
      = some ((List.zipWith (fun e m => e / m - 1) rest (scanMax e0 rest)).foldl min 0) := by
    rw [specMaxDd, specDrawdown_eq_zip, hsplit, hd0]
    rfl
  -- the running maximum dominates the prefix and is positive
  have hrm_seed : ∀ i : ℕ, e0 ≤ specRunMax (e0 :: rest) i := by
    intro i
    rw [specRunMax]
    exact le_foldlMax_init _ _
  have hrm_pos : ∀ i : ℕ, 0 < specRunMax (e0 :: rest) i :=
    fun i => lt_of_lt_of_le hpos (hrm_seed i)
  have hle_rm : ∀ i j : ℕ, j ≤ i → i < (e0 :: rest).length →
      (e0 :: rest).getD j 0 ≤ specRunMax (e0 :: rest) i := by
    intro i j hj hi
    have hjlen : j < (e0 :: rest).length := by omega
    have hmem : (e0 :: rest).getD j 0 ∈ (e0 :: rest).take (i + 1) := by
      have h : ((e0 :: rest).take (i + 1))[j]? = some ((e0 :: rest).getD j 0) := by
        rw [List.getElem?_take, if_pos (by omega), List.getElem?_eq_getElem hjlen,
          List.getD_eq_getElem _ 0 hjlen]
      exact List.getElem?_mem h
    rw [specRunMax]
    exact le_foldlMax_mem _ _ _ hmem
  refine ⟨by rw [hspec, hcode]; rfl, ?_, ?_⟩
  · intro q hq
    rw [hcode] at hq
    cases hq
    exact foldlMin_le_init _ 0
  · intro q hq hq0 i hi j hj
    rw [hcode] at hq
    cases hq
    -- the fold being 0 makes every tail drawdown entry nonnegative
    have hnn : ∀ x ∈ List.zipWith (fun e m => e / m - 1) rest (scanMax e0 rest),
        (0 : ℚ) ≤ x := fun x hx => hq0 ▸ foldlMin_le_mem _ 0 x hx
    -- hence the running max never exceeds the current equity value
    have hrm_le : specRunMax (e0 :: rest) i ≤ (e0 :: rest).getD i 0 := by
      cases i with
      | zero =>
        have h0 : specRunMax (e0 :: rest) 0 = e0 := by
          simp [specRunMax]
        rw [h0]
        exact le_refl _
      | succ j' =>
        have hj' : j' < rest.length := by simpa using hi
        have hrw : specRunMax (e0 :: rest) (j' + 1) = (rest.take (j' + 1)).foldl max e0 := by
          rw [specRunMax]
          show ((e0 :: rest).take (j' + 1 + 1)).foldl max e0 = _
          rw [List.take_succ_cons, List.foldl_cons, max_self]
        have hdval : (List.zipWith (fun e m => e / m - 1) rest (scanMax e0 rest))[j']?
            = some (rest.getD j' 0 / specRunMax (e0 :: rest) (j' + 1) - 1) := by
          rw [List.getElem?_zipWith', List.getElem?_eq_getElem hj',
            scanMax_getElem rest e0 j' hj', List.getD_eq_getElem rest 0 hj', hrw]
          rfl
        have hmem := List.getElem?_mem hdval
        have h0le := hnn _ hmem
        have h1le : 1 ≤ rest.getD j' 0 / specRunMax (e0 :: rest) (j' + 1) := by linarith
        have := (one_le_div (hrm_pos (j' + 1))).mp h1le
        simpa using this
    exact le_trans (hle_rm i j hj hi) hrm_le

/-- Witness for C4 on the equity curve [1, 1/2, 1] (halves, then recovers):
the code and spec values agree, and the value is -1/2 ≤ 0. -/
theorem c4_max_drawdown_witness :
    Option.map V.num (specMaxDd [1, 1/2, 1])
      = some (maxDdOf (([1, 1/2, 1] : List ℚ).map V.num))
    ∧ maxDdOf (([1, 1/2, 1] : List ℚ).map V.num) = V.num (-(1/2))
    ∧ (∀ q : ℚ, maxDdOf (([1, 1/2, 1] : List ℚ).map V.num) = V.num q → q ≤ 0) := by
  have h := c4_max_drawdown 1 [1/2, 1] (by norm_num)
  refine ⟨h.1, ?_, h.2.1⟩
  norm_num [maxDdOf, cummax, cummaxGo, minSkipna]

/-! ### Column store lemmas for the mutation claim -/

/-- Setting a column makes it found. -/
theorem find?_setColGo_self (cols : List (String × List V)) (n : String) (v : List V) :
    (setColGo n v cols).find? (fun p => p.1 = n) = some (n, v) := by
  induction cols with
  | nil => simp [setColGo]
  | cons p r ih =>
    by_cases h : p.1 = n
    · simp [setColGo, h]
    · simp [setColGo, h, ih]

/-- Setting a column leaves other columns' lookup unchanged. -/
theorem find?_setColGo_ne (cols : List (String × List V)) (n m : String)
    (v : List V) (h : m ≠ n) :
    (setColGo n v cols).find? (fun p => p.1 = m) = cols.find? (fun p => p.1 = m) := by
  have hnm : ¬ (n = m) := fun hc => h hc.symm
  induction cols with
  | nil =>
    rw [show setColGo n v [] = [(n, v)] from rfl,
      List.find?_cons_of_neg _ (by simpa using hnm)]
  | cons p r ih =>
    by_cases hp : p.1 = n
    · have hpm : ¬ (p.1 = m) := by rw [hp]; exact hnm
      rw [show setColGo n v (p :: r) = (n, v) :: r from by simp [setColGo, hp],
        List.find?_cons_of_neg _ (by simpa using hnm),
        List.find?_cons_of_neg _ (by simpa using hpm)]
    · rw [show setColGo n v (p :: r) = p :: setColGo n v r from by simp [setColGo, hp]]
      by_cases hm : p.1 = m
      · rw [List.find?_cons_of_pos _ (by simpa using hm),
          List.find?_cons_of_pos _ (by simpa using hm)]
      · rw [List.find?_cons_of_neg _ (by simpa using hm),
          List.find?_cons_of_neg _ (by simpa using hm), ih]

/-- Reading a just-written column returns its value. -/
theorem getCol_setCol_self (df : Df) (n : String) (v : List V) :
    getCol (setCol df n v) n = v := by
  simp [getCol, setCol, find?_setColGo_self]

/-- Reading another column is unaffected by a write. -/
theorem getCol_setCol_ne (df : Df) (n m : String) (v : List V) (h : m ≠ n) :
    getCol (setCol df n v) m = getCol df m := by
  simp [getCol, setCol, find?_setColGo_ne df.cols n m v h]

/-- Claim C8, amended: `compute_performance` leaves the price and signal
column values unchanged (their names not colliding with the derived ones),
but it mutates its input frame: the returned frame holds the three derived
columns price_ret, strat_ret and equity, written into the input structure,
and the same index. -/
theorem c8_mutation (df : Df) (sc pc : String) (c : ℚ) (df' : Df)
    (hsc1 : sc ≠ "price_ret") (hsc2 : sc ≠ "strat_ret") (hsc3 : sc ≠ "equity")
    (hpc1 : pc ≠ "price_ret") (hpc2 : pc ≠ "strat_ret") (hpc3 : pc ≠ "equity")
    (h : (compute_performance df sc pc c).map Prod.snd = Except.ok df') :
    getCol df' pc = getCol df pc
    ∧ getCol df' sc = getCol df sc
    ∧ getCol df' "price_ret" = priceRetOf (getCol df pc)
    ∧ getCol df' "strat_ret" = stratRetOf (getCol df pc) (getCol df sc)
    ∧ getCol df' "equity" = equityOf (getCol df pc) (getCol df sc) c
    ∧ df'.index = df.index := by
  have hrs : ("price_ret" : String) ≠ "strat_ret" := by decide
  have hre : ("price_ret" : String) ≠ "equity" := by decide
  have hse : ("strat_ret" : String) ≠ "equity" := by decide
  simp only [compute_performance] at h
  split at h
  · simp [Except.map] at h
  · split at h
    · simp [Except.map] at h
    · split at h
      · simp [Except.map] at h
      · simp only [Except.map] at h
        cases h
        refine ⟨?_, ?_, ?_, ?_, ?_, rfl⟩
        · rw [getCol_setCol_ne _ _ _ _ hpc3, getCol_setCol_ne _ _ _ _ hpc2,
            getCol_setCol_ne _ _ _ _ hpc1]
        · rw [getCol_setCol_ne _ _ _ _ hsc3, getCol_setCol_ne _ _ _ _ hsc2,
            getCol_setCol_ne _ _ _ _ hsc1]
        · rw [getCol_setCol_ne _ _ _ _ hre, getCol_setCol_ne _ _ _ _ hrs,
            getCol_setCol_self]
        · rw [getCol_setCol_ne _ _ _ _ hse, getCol_setCol_self,
            getCol_setCol_ne _ _ _ _ hsc1, getCol_setCol_self]
          rfl
        · rw [getCol_setCol_self, getCol_setCol_self,
            getCol_setCol_ne _ _ _ _ hsc1, getCol_setCol_self]
          rfl

/-- Claim C8, counterexample: running `compute_performance` does not leave
the input frame as it was — the returned (threaded) frame differs from the
input frame, because the three derived columns were written into it. -/
theorem c8_counterexample :
    (compute_performance c8Df "signal" "Close" 1).map Prod.snd ≠ Except.ok c8Df := by
  have h : (compute_performance c8Df "signal" "Close" 1).map Prod.snd
      = Except.ok c8DfOut := by
    simp [compute_performance, c8Df, c8DfOut, getCol, setCol, setColGo, inferFreq,
      annualization_factor, annFactorChar, priceRetOf, pctChange, shift1,
      List.dropLast, cumprod, cumprodGo, Except.map]
    all_goals norm_num
  rw [h]
  simp [c8Df, c8DfOut]

/-- Witness for the amended C8: on the concrete frame `c8Df`, the run
returns the mutated frame `c8DfOut`; prices and signals are preserved and
the three derived columns are present in it. -/
theorem c8_mutation_witness :
    getCol c8DfOut "Close" = getCol c8Df "Close"
    ∧ getCol c8DfOut "signal" = getCol c8Df "signal"
    ∧ getCol c8DfOut "price_ret" = priceRetOf (getCol c8Df "Close")
    ∧ getCol c8DfOut "strat_ret" = stratRetOf (getCol c8Df "Close") (getCol c8Df "signal")
    ∧ getCol c8DfOut "equity" = equityOf (getCol c8Df "Close") (getCol c8Df "signal") 1
    ∧ c8DfOut.index = c8Df.index := by
  have h : (compute_performance c8Df "signal" "Close" 1).map Prod.snd
      = Except.ok c8DfOut := by
    simp [compute_performance, c8Df, c8DfOut, getCol, setCol, setColGo, inferFreq,
      annualization_factor, annFactorChar, priceRetOf, pctChange, shift1,
      List.dropLast, cumprod, cumprodGo, Except.map]
    all_goals norm_num
  exact c8_mutation c8Df "signal" "Close" 1 c8DfOut (by decide) (by decide) (by decide)
    (by decide) (by decide) (by decide) h
